import Mathlib

/-
Verification development for `scripts/visa_scraper.py` (digital nomad visa
scraper).  The Python functions are shallowly embedded as executable Lean
definitions: Python dictionaries become association lists over a value type
`PyVal`, exceptions become `Option`/dedicated result types, and the two
regular expressions used by the fallback extractor are embedded as
deterministic maximal-munch scanners (which coincide with Python's
backtracking semantics for these particular patterns, since no alternative
of either pattern can start with a character accepted by the preceding
greedy quantifier).  Unicode-specific behaviour of `str.lower`, `\d` and
`int()` is modelled at the ASCII level, and JSON numbers are modelled as
integers; none of the verified properties depend on those corners.
-/

set_option autoImplicit false

namespace VisaScraper

/-- A Python value as it appears in the scraper's dictionaries: `None`,
booleans, integers, strings and lists. -/
inductive PyVal where
  | none : PyVal
  | bool : Bool → PyVal
  | int : Int → PyVal
  | str : String → PyVal
  | list : List PyVal → PyVal

mutual

/-- Decidable equality of Python values. -/
def pyValDecEq : (a b : PyVal) → Decidable (a = b)
  | .none, .none => .isTrue rfl
  | .none, .bool _ => .isFalse (fun h => PyVal.noConfusion h)
  | .none, .int _ => .isFalse (fun h => PyVal.noConfusion h)
  | .none, .str _ => .isFalse (fun h => PyVal.noConfusion h)
  | .none, .list _ => .isFalse (fun h => PyVal.noConfusion h)
  | .bool _, .none => .isFalse (fun h => PyVal.noConfusion h)
  | .bool x, .bool y =>
      match decEq x y with
      | .isTrue h => .isTrue (h ▸ rfl)
      | .isFalse h => .isFalse (fun he => h (PyVal.bool.inj he))
  | .bool _, .int _ => .isFalse (fun h => PyVal.noConfusion h)
  | .bool _, .str _ => .isFalse (fun h => PyVal.noConfusion h)
  | .bool _, .list _ => .isFalse (fun h => PyVal.noConfusion h)
  | .int _, .none => .isFalse (fun h => PyVal.noConfusion h)
  | .int _, .bool _ => .isFalse (fun h => PyVal.noConfusion h)
  | .int x, .int y =>
      match decEq x y with
      | .isTrue h => .isTrue (h ▸ rfl)
      | .isFalse h => .isFalse (fun he => h (PyVal.int.inj he))
  | .int _, .str _ => .isFalse (fun h => PyVal.noConfusion h)
  | .int _, .list _ => .isFalse (fun h => PyVal.noConfusion h)
  | .str _, .none => .isFalse (fun h => PyVal.noConfusion h)
  | .str _, .bool _ => .isFalse (fun h => PyVal.noConfusion h)
  | .str _, .int _ => .isFalse (fun h => PyVal.noConfusion h)
  | .str x, .str y =>
      match decEq x y with
      | .isTrue h => .isTrue (h ▸ rfl)
      | .isFalse h => .isFalse (fun he => h (PyVal.str.inj he))
  | .str _, .list _ => .isFalse (fun h => PyVal.noConfusion h)
  | .list _, .none => .isFalse (fun h => PyVal.noConfusion h)
  | .list _, .bool _ => .isFalse (fun h => PyVal.noConfusion h)
  | .list _, .int _ => .isFalse (fun h => PyVal.noConfusion h)
  | .list _, .str _ => .isFalse (fun h => PyVal.noConfusion h)
  | .list l1, .list l2 =>
      match pyValListDecEq l1 l2 with
      | .isTrue h => .isTrue (h ▸ rfl)
      | .isFalse h => .isFalse (fun he => h (PyVal.list.inj he))

/-- Decidable equality of lists of Python values. -/
def pyValListDecEq : (a b : List PyVal) → Decidable (a = b)
  | [], [] => .isTrue rfl
  | [], _ :: _ => .isFalse (fun h => List.noConfusion h)
  | _ :: _, [] => .isFalse (fun h => List.noConfusion h)
  | x :: xs, y :: ys =>
      match pyValDecEq x y with
      | .isFalse h => .isFalse (fun he => h (List.head_eq_of_cons_eq he))
      | .isTrue h1 =>
          match pyValListDecEq xs ys with
          | .isTrue h2 => .isTrue (h1 ▸ h2 ▸ rfl)
          | .isFalse h => .isFalse (fun he => h (List.tail_eq_of_cons_eq he))

end

instance : DecidableEq PyVal := pyValDecEq

/-- A Python dict with string keys (e.g. a JSON-decoded extraction result):
an association list in insertion order, keys unique. -/
abbrev RawExtraction := List (String × PyVal)

/-- `d.get(k)` — first value stored under `k`, if any. -/
def pyGet : RawExtraction → String → Option PyVal
  | [], _ => Option.none
  | (k, v) :: rest, key => if k = key then some v else pyGet rest key

/-- `d.get(k, default)`. -/
def pyGetD (d : RawExtraction) (key : String) (default : PyVal) : PyVal :=
  (pyGet d key).getD default

/-- `d[k] = v`: replace the value of an existing key in place, else append. -/
def dictSet : RawExtraction → String → PyVal → RawExtraction
  | [], key, v => [(key, v)]
  | (k, w) :: rest, key, v =>
      if k = key then (key, v) :: rest else (k, w) :: dictSet rest key v

/-- Python truthiness of a value. -/
def truthy : PyVal → Bool
  | .none => false
  | .bool b => b
  | .int n => !(n == 0)
  | .str s => !(s == "")
  | .list l => !l.isEmpty

mutual

/-- `repr` of a value, as used by `str()` on a dict (string quoting modelled
for strings without quotes or escapes; the quote is one character either
way, so serialized lengths agree with CPython). -/
def pyReprVal : PyVal → String
  | .none => "None"
  | .bool true => "True"
  | .bool false => "False"
  | .int n => toString n
  | .str s => "\x27" ++ s ++ "\x27"
  | .list l => "[" ++ pyReprList l ++ "]"

/-- Comma-separated `repr`s of the elements of a list. -/
def pyReprList : List PyVal → String
  | [] => ""
  | [v] => pyReprVal v
  | v :: rest => pyReprVal v ++ ", " ++ pyReprList rest

end

/-- `str(d)` for a dict `d`. -/
def dictStr (d : RawExtraction) : String :=
  "\x7b" ++ String.intercalate ", "
      (d.map (fun p => "\x27" ++ p.1 ++ "\x27: " ++ pyReprVal p.2)) ++ "\x7d"

/-- `len(str(d))`, the scoring function of `combine_country_data`. -/
def serLen (d : RawExtraction) : Nat :=
  (dictStr d).length

/-- One step of Python's `max` scan: a later element replaces the current
best only when its key is strictly greater. -/
def maxStep (f : RawExtraction → Nat) (best y : RawExtraction) : RawExtraction :=
  if f y > f best then y else best

/-- Python `max(xs, key=f)`: the first element attaining the greatest key;
`none` on the empty list (where CPython raises `ValueError`). -/
def pyMaxBy (f : RawExtraction → Nat) : List RawExtraction → Option RawExtraction
  | [] => Option.none
  | x :: xs => some (xs.foldl (maxStep f) x)

/-- Python `v[0]`: first element of a list or first character of a string;
`none` models the `IndexError`/`TypeError` raised otherwise. -/
def pyIndex0 : PyVal → Option PyVal
  | .list (x :: _) => some x
  | .list [] => Option.none
  | .str s =>
      match s.toList with
      | c :: _ => some (.str (String.singleton c))
      | [] => Option.none
  | _ => Option.none

/-! ### The two regular expressions of `manual_extraction`

`income_pattern    = r"(\d+(?:,\d+)*)\s*(?:EUR|€|euros?|dollars?|\$)"`
`visa_duration_pattern = r"(\d+)\s*(?:year|month)s?"`

both searched with `re.IGNORECASE`.  Every greedy quantifier in these
patterns is followed by material that cannot start with a character the
quantifier accepts, so Python's backtracking search is equivalent to the
deterministic maximal-munch scan implemented below, with `re.search`
trying start positions from the left. -/

/-- Python `\s` (ASCII part). -/
def isSpaceChar (c : Char) : Bool :=
  c = ' ' || c = '\t' || c = '\n' || c = '\r' || c = '\x0b' || c = '\x0c'

/-- Maximal munch of `\d+` (possibly empty): the consumed digits and the
remaining input. -/
def munchDigits : List Char → List Char × List Char
  | [] => ([], [])
  | c :: cs =>
      if c.isDigit then
        let p := munchDigits cs
        (c :: p.1, p.2)
      else ([], c :: cs)

/-- Maximal munch of `\s*`: the consumed whitespace and the remaining
input. -/
def munchSpaces : List Char → List Char × List Char
  | [] => ([], [])
  | c :: cs =>
      if isSpaceChar c then
        let p := munchSpaces cs
        (c :: p.1, p.2)
      else ([], c :: cs)

/-- Maximal munch of `(?:,\d+)*`, fuelled (each iteration consumes at least
two characters, so fuel equal to the input length is exact). -/
def munchCommaGroupsF : Nat → List Char → List Char × List Char
  | 0, cs => ([], cs)
  | _ + 1, [] => ([], [])
  | n + 1, x :: rest =>
      if x = ',' then
        match munchDigits rest with
        | ([], _) => ([], x :: rest)
        | (d :: ds, r) =>
            let q := munchCommaGroupsF n r
            (x :: ((d :: ds) ++ q.1), q.2)
      else ([], x :: rest)

/-- Maximal munch of `(?:,\d+)*`. -/
def munchCommaGroups (cs : List Char) : List Char × List Char :=
  munchCommaGroupsF cs.length cs

/-- Case-insensitive `startsWith` on character lists (ASCII lowering, as in
`re.IGNORECASE` over these ASCII patterns). -/
def startsWithCI : List Char → List Char → Bool
  | [], _ => true
  | _ :: _, [] => false
  | p :: ps, c :: cs => (c.toLower = p.toLower) && startsWithCI ps cs

/-- The alternation `(?:EUR|€|euros?|dollars?|\$)` succeeds here iff the
input starts with `eur` (case-insensitive), `€`, `dollar`
(case-insensitive) or `$` (the `euros?`/`dollars?` tails only extend the
match, which the captured group does not include). -/
def currencyHere (cs : List Char) : Bool :=
  startsWithCI ['e', 'u', 'r'] cs || startsWithCI ['€'] cs ||
    startsWithCI ['d', 'o', 'l', 'l', 'a', 'r'] cs || startsWithCI ['$'] cs

/-- Attempt the income pattern at the current position; returns the
captured group 1 `(\d+(?:,\d+)*)`. -/
def matchIncomeAt (cs : List Char) : Option (List Char) :=
  match munchDigits cs with
  | ([], _) => Option.none
  | (d :: ds, r1) =>
      let g := munchCommaGroups r1
      let sp := munchSpaces g.2
      if currencyHere sp.2 then some ((d :: ds) ++ g.1) else Option.none

/-- `re.search`: try the positional matcher at every start position from
the left, first success wins. -/
def reSearch (matchAt : List Char → Option (List Char)) :
    List Char → Option (List Char)
  | [] => matchAt []
  | c :: cs =>
      match matchAt (c :: cs) with
      | some r => some r
      | Option.none => reSearch matchAt cs

/-- `re.search(income_pattern, text, re.IGNORECASE)`, returning
`group(1)`. -/
def income_search (text : String) : Option String :=
  (reSearch matchIncomeAt text.toList).map String.mk

/-- `s.replace(",", "")`. -/
def stripCommas (s : String) : String :=
  String.mk (s.toList.filter (fun c => !(c == ',')))

/-- Python `int(s)` restricted to the unsigned decimal strings produced by
the income pattern: succeeds exactly on nonempty all-digit strings. -/
def pyParseInt (s : String) : Option Int :=
  let cs := s.toList
  if cs ≠ [] ∧ cs.all Char.isDigit then
    some (Int.ofNat (cs.foldl (fun a c => a * 10 + (c.toNat - 48)) 0))
  else Option.none

/-- Lines 143-150 of `visa_scraper.py`: the income parse of the fallback
extractor.  `None` when the search fails (and on an `int()` failure, where
the `except ValueError` leaves `min_income = None`). -/
def min_income (text : String) : PyVal :=
  match income_search text with
  | Option.none => .none
  | some g =>
      match pyParseInt (stripCommas g) with
      | some n => .int n
      | Option.none => .none

/-- Attempt the duration pattern `(\d+)\s*(?:year|month)s?` at the current
position; returns the whole match `group(0)` verbatim (original casing,
including the matched whitespace and optional trailing `s`). -/
def matchDurationAt (cs : List Char) : Option (List Char) :=
  match munchDigits cs with
  | ([], _) => Option.none
  | (d :: ds, r1) =>
      let sp := munchSpaces r1
      let unitLen : Nat :=
        if startsWithCI ['y', 'e', 'a', 'r'] sp.2 then 4
        else if startsWithCI ['m', 'o', 'n', 't', 'h'] sp.2 then 5
        else 0
      if unitLen = 0 then Option.none
      else
        let afterUnit := sp.2.drop unitLen
        let sLen : Nat :=
          match afterUnit with
          | c :: _ => if c.toLower = 's' then 1 else 0
          | [] => 0
        some ((d :: ds) ++ sp.1 ++ sp.2.take (unitLen + sLen))

/-- Lines 152-154: the duration parse of the fallback extractor. -/
def visa_duration (text : String) : String :=
  match reSearch matchDurationAt text.toList with
  | some m => String.mk m
  | Option.none => "Not specified"

/-- Python `s.lower()` (ASCII), as a character-wise map. -/
def pyLower (s : String) : String := String.mk (s.toList.map Char.toLower)

/-- Substring containment on character lists: `needle` occurs at some
position of `hay`. -/
def listContains : List Char → List Char → Bool
  | needle, [] => needle.isEmpty
  | needle, c :: cs => needle.isPrefixOf (c :: cs) || listContains needle cs

/-- Python `needle in hay` for strings: substring containment. -/
def pyIn (needle hay : String) : Bool :=
  listContains needle.toList hay.toList

/-- Lines 156-163: the keyword-triggered eligibility sentences, in the
fixed order of the source. -/
def elig_base (text : String) : List String :=
  let lower := pyLower text
  (if pyIn "remote work" lower then
     ["Must work remotely for employer outside the country"] else []) ++
  (if pyIn "income" lower then ["Proof of sufficient income required"] else []) ++
  (if pyIn "insurance" lower then ["Health insurance required"] else [])

/-- Line 168: `eligibility if eligibility else [...]`. -/
def elig_list (text : String) : List String :=
  let e := elig_base text
  if e.isEmpty then ["Check official source for requirements"] else e

/-- Lines 134-173, `manual_extraction`: the fallback extractor.  A total
function — the Lean embedding makes "never raises" structural. -/
def manual_extraction (markdown_content source_url : String) : RawExtraction :=
  [("visa_name", .str "Digital Nomad Visa"),
   ("min_monthly_income", min_income markdown_content),
   ("eligibility_criteria", .list ((elig_list markdown_content).map .str)),
   ("application_process", .list [.str "Check official source for application steps"]),
   ("visa_duration", .str (visa_duration markdown_content)),
   ("source_url", .str source_url),
   ("extraction_method", .str "manual")]

/-- Collects `. ".join`-able elements: `some` exactly when every element is
a string (a non-string element makes `str.join` raise `TypeError`). -/
def asStrList : List PyVal → Option (List String)
  | [] => some []
  | .str s :: rest => (asStrList rest).map (fun l => s :: l)
  | _ => Option.none

/-- Lines 200-208, `create_brief_eligibility`.  `none` models a `TypeError`
(slicing a non-sequence value, or joining non-string items). -/
def create_brief_eligibility (data : RawExtraction) : Option String :=
  let criteria := pyGetD data "eligibility_criteria" (.list [])
  if truthy criteria = false then some "Remote work visa for digital nomads"
  else
    match criteria with
    | .list l =>
        let brief_points := l.take 2
        if brief_points.isEmpty then some "Remote work visa for digital nomads"
        else
          match asStrList brief_points with
          | some ss => some (String.intercalate ". " ss ++ ".")
          | Option.none => Option.none
    | .str s =>
        let brief_points := (s.toList.take 2).map String.singleton
        if brief_points.isEmpty then some "Remote work visa for digital nomads"
        else some (String.intercalate ". " brief_points ++ ".")
    | _ => Option.none

/-- One entry of `countries_data` (the coordinates are carried opaquely; the
decimal literals are modelled as rationals). -/
structure CountryInfo where
  name : String
  urls : List String
  latitude : Rat
  longitude : Rat
  deriving DecidableEq

/-- The Sanity-compatible output entry built by `combine_country_data`
(`slug` holds the `{"current": ...}` sub-field; `scraped_at` is the
timestamp passed in explicitly in place of `datetime.now()`). -/
structure VisaRecord where
  countryName : String
  slug : String
  visaName : PyVal
  minMonthlyIncome : PyVal
  briefEligibility : String
  fullEligibility : PyVal
  applicationProcess : PyVal
  officialLink : PyVal
  visaDuration : PyVal
  pathToResidency : PyVal
  latitude : Rat
  longitude : Rat
  scraped_at : String
  all_sources : List PyVal
  deriving DecidableEq

/-- Line 195: `[item.get("source_url") for item in scraped_data if
item.get("source_url")]`. -/
def all_sources_of (scraped_data : List RawExtraction) : List PyVal :=
  scraped_data.filterMap (fun item =>
    match pyGet item "source_url" with
    | some v => if truthy v then some v else Option.none
    | Option.none => Option.none)

/-- Line 183: `country_info["name"].lower().replace(" ", "-")`
(`replace` with a one-character pattern and a one-character replacement is
a character-wise substitution). -/
def pySlug (name : String) : String :=
  String.mk ((pyLower name).toList.map (fun c => if c = ' ' then '-' else c))

/-- Lines 175-198, `combine_country_data`.  `none` models an exception
escaping the function: `ValueError` from `max` on an empty sequence,
`TypeError` inside `create_brief_eligibility`, or `IndexError`/`TypeError`
on the `[0]` of the `officialLink` entry (the dict literal evaluates its
values in order, so `briefEligibility` is computed before
`officialLink`). -/
def combine_country_data (country_info : CountryInfo)
    (scraped_data : List RawExtraction) (now : String) : Option VisaRecord :=
  match pyMaxBy serLen scraped_data with
  | Option.none => Option.none
  | some best_data =>
      match create_brief_eligibility best_data with
      | Option.none => Option.none
      | some brief =>
          match pyIndex0 (pyGetD best_data "official_links"
              (.list [pyGetD best_data "source_url" (.str "")])) with
          | Option.none => Option.none
          | some officialLink =>
              some
                { countryName := country_info.name
                  slug := pySlug country_info.name
                  visaName := pyGetD best_data "visa_name"
                    (.str (country_info.name ++ " Digital Nomad Visa"))
                  minMonthlyIncome := pyGetD best_data "min_monthly_income" (.int 0)
                  briefEligibility := brief
                  fullEligibility := pyGetD best_data "eligibility_criteria" (.list [])
                  applicationProcess := pyGetD best_data "application_process" (.list [])
                  officialLink := officialLink
                  visaDuration := pyGetD best_data "visa_duration"
                    (.str "Check official source")
                  pathToResidency := pyGetD best_data "path_to_residency" (.bool false)
                  latitude := country_info.latitude
                  longitude := country_info.longitude
                  scraped_at := now
                  all_sources := all_sources_of scraped_data }

/-- Outcome of crawling one URL, the explicit stand-in for the network:
`failure` covers an unsuccessful crawl, empty extracted content, and a
raised exception during the crawl itself; `structured` carries a
JSON-decoded dict (`json.loads` returned an object, whatever its fields);
`malformed` is a successful crawl whose extracted content raises
`json.JSONDecodeError`, carrying the page markdown handed to
`manual_extraction`; `nonDict` is a successful crawl whose extracted
content is valid JSON but not an object (e.g. a JSON array), carrying the
decoded value and the page markdown — there line 110's
`extracted_data["source_url"] = url` raises `TypeError`, which the inner
`except json.JSONDecodeError` does not catch. -/
inductive FetchOutcome where
  | failure : FetchOutcome
  | structured : RawExtraction → FetchOutcome
  | malformed : String → FetchOutcome
  | nonDict : PyVal → String → FetchOutcome

/-- Lines 95-124: the per-URL loop of `scrape_country` accumulating
`all_data`.  The structured branch performs
`extracted_data["source_url"] = url`; the malformed branch appends the
manual extraction when it is truthy (a nonempty dict); the nonDict branch
contributes nothing: the `TypeError` from the item assignment propagates
to the outer per-URL `except Exception`, which logs and `continue`s, so
the URL is skipped without invoking the Fallback Extractor. -/
def gatherData : List (String × FetchOutcome) → List RawExtraction
  | [] => []
  | (url, o) :: rest =>
      match o with
      | .failure => gatherData rest
      | .structured d => dictSet d "source_url" (.str url) :: gatherData rest
      | .malformed md =>
          let m := manual_extraction md url
          if m.isEmpty then gatherData rest else m :: gatherData rest
      | .nonDict _ _ => gatherData rest

/-- Result of `scrape_country` as observed by `scrape_all_countries`:
a returned record, a returned `None`, or an exception that escaped
(raised by `combine_country_data`, outside the per-URL handler). -/
inductive CountryResult where
  | ok : VisaRecord → CountryResult
  | noData : CountryResult
  | raised : CountryResult
  deriving DecidableEq

/-- Lines 87-132, `scrape_country`: crawl every URL of the country, then
merge whatever was gathered (returning `None` when nothing was). -/
def scrape_country (country_info : CountryInfo) (fetch : String → FetchOutcome)
    (now : String) : CountryResult :=
  let all_data := gatherData (country_info.urls.map (fun u => (u, fetch u)))
  if all_data.isEmpty then .noData
  else
    match combine_country_data country_info all_data now with
    | some r => .ok r
    | Option.none => .raised

/-- Lines 17-24 of `countries_data`: Spain. -/
def spainInfo : CountryInfo :=
  { name := "Spain"
    urls :=
      ["https://www.exteriores.gob.es/Consulados/londres/en/ServiciosConsulares/Paginas/Consular/Digital-Nomad-Visa.aspx",
       "https://prie.comercio.gob.es/en-us/paginas/teletrabajadores-caracter-internacional.aspx"]
    latitude := 40.4168
    longitude := -3.7038 }

/-- Lines 25-32: Portugal. -/
def portugalInfo : CountryInfo :=
  { name := "Portugal"
    urls :=
      ["https://vistos.mne.gov.pt/en/national-visas/general-information/type-of-visa",
       "https://www2.gov.pt/en/migrantes-viver-e-trabalhar-em-portugal/migrantes-vistos-e-autorizacoes-para-entrar-e-viver-em-portugal"]
    latitude := 38.7223
    longitude := -9.1393 }

/-- Lines 33-40: Mexico. -/
def mexicoInfo : CountryInfo :=
  { name := "Mexico"
    urls :=
      ["https://consulmex.sre.gob.mx/leamington/index.php/non-mexicans/visas/115-temporary-resident-visa",
       "https://www.inm.gob.mx/sae/publico/en/solicitud.html"]
    latitude := 23.6345
    longitude := -102.5528 }

/-- Lines 41-48: Croatia. -/
def croatiaInfo : CountryInfo :=
  { name := "Croatia"
    urls :=
      ["https://mup.gov.hr/aliens-281621/temporary-stay-of-digital-nomads-286853/286853",
       "https://digitalnomadscroatia.mup.hr/"]
    latitude := 45.1000
    longitude := 15.2000 }

/-- Lines 49-55: Italy. -/
def italyInfo : CountryInfo :=
  { name := "Italy"
    urls :=
      ["https://consnewyork.esteri.it/en/servizi-consolari-e-visti/servizi-per-il-cittadino-straniero/visti/visas-to-enter-italy/digital-nomad-remote-worker-visa/"]
    latitude := 41.8719
    longitude := 12.5674 }

/-- Lines 16-56: the country registry, in insertion order. -/
def countries_data : List (String × CountryInfo) :=
  [("spain", spainInfo), ("portugal", portugalInfo), ("mexico", mexicoInfo),
   ("croatia", croatiaInfo), ("italy", italyInfo)]

/-- Lines 216-230: the per-country loop of `scrape_all_countries`.  The
`except Exception` around the body maps `raised` — like `noData` — to
"skip this country and continue". -/
def scrapeLoop (fetch : String → FetchOutcome) (now : String) :
    List (String × CountryInfo) → List (String × VisaRecord)
  | [] => []
  | p :: rest =>
      match scrape_country p.2 fetch now with
      | .ok r => (p.1, r) :: scrapeLoop fetch now rest
      | .noData => scrapeLoop fetch now rest
      | .raised => scrapeLoop fetch now rest

/-- Lines 210-240, `scrape_all_countries`: the accumulated
`all_results` mapping, keys in processing order. -/
def scrape_all_countries (fetch : String → FetchOutcome) (now : String) :
    List (String × VisaRecord) :=
  scrapeLoop fetch now countries_data

mutual

/-- JSON text of a value, for the final `json.dump` (string escaping and
float formatting abstracted; whitespace of `indent=2` abstracted). -/
def jsonOfPyVal : PyVal → String
  | .none => "null"
  | .bool true => "true"
  | .bool false => "false"
  | .int n => toString n
  | .str s => "\"" ++ s ++ "\""
  | .list l => "[" ++ jsonOfPyValList l ++ "]"

/-- Comma-separated JSON texts of list elements. -/
def jsonOfPyValList : List PyVal → String
  | [] => ""
  | [v] => jsonOfPyVal v
  | v :: rest => jsonOfPyVal v ++ ", " ++ jsonOfPyValList rest

end

/-- JSON text of one output record, fields in the insertion order of the
`sanity_entry` dict literal. -/
def jsonOfRecord (r : VisaRecord) : String :=
  "\x7b" ++ String.intercalate ", "
    ["\"countryName\": " ++ jsonOfPyVal (.str r.countryName),
     "\"slug\": \x7b\"current\": " ++ jsonOfPyVal (.str r.slug) ++ "\x7d",
     "\"visaName\": " ++ jsonOfPyVal r.visaName,
     "\"minMonthlyIncome\": " ++ jsonOfPyVal r.minMonthlyIncome,
     "\"briefEligibility\": " ++ jsonOfPyVal (.str r.briefEligibility),
     "\"fullEligibility\": " ++ jsonOfPyVal r.fullEligibility,
     "\"applicationProcess\": " ++ jsonOfPyVal r.applicationProcess,
     "\"officialLink\": " ++ jsonOfPyVal r.officialLink,
     "\"visaDuration\": " ++ jsonOfPyVal r.visaDuration,
     "\"pathToResidency\": " ++ jsonOfPyVal r.pathToResidency,
     "\"latitude\": " ++ toString r.latitude,
     "\"longitude\": " ++ toString r.longitude,
     "\"scraped_at\": " ++ jsonOfPyVal (.str r.scraped_at),
     "\"all_sources\": [" ++ jsonOfPyValList r.all_sources ++ "]"] ++ "\x7d"

/-- Lines 232-235: `json.dump(all_results, f, indent=2,
ensure_ascii=False)`, modelled as the serialized text that is written to
`visa_data.json`. -/
def save_results (results : List (String × VisaRecord)) : String :=
  "\x7b" ++ String.intercalate ", "
    (results.map (fun p => "\"" ++ p.1 ++ "\": " ++ jsonOfRecord p.2)) ++ "\x7d"

/-- The tail of `scrape_all_countries`: accumulate the results, then
unconditionally serialize them (the file write is modelled as returning
the serialized text alongside the results). -/
def run_all (fetch : String → FetchOutcome) (now : String) :
    List (String × VisaRecord) × String :=
  let results := scrape_all_countries fetch now
  (results, save_results results)

/-! ### Concrete inputs used to instantiate the theorems below -/

/-- A synthetic structured extraction carrying an explicit official
link. -/
def linkedExtraction : RawExtraction :=
  [("official_links", PyVal.list [PyVal.str "https://gov.example/visa"]),
   ("source_url", PyVal.str "https://u1")]

/-- A synthetic extraction with a short serialized form. -/
def shortExtraction : RawExtraction := [("visa_name", PyVal.str "A")]

/-- A synthetic extraction with a longer serialized form. -/
def longExtraction : RawExtraction :=
  [("visa_name", PyVal.str "A"), ("eligibility_criteria", PyVal.list [PyVal.str "B"])]

/-- Two synthetic extractions sharing one source URL. -/
def dupA : RawExtraction :=
  [("visa_name", PyVal.str "A"), ("source_url", PyVal.str "https://a")]

/-- Second extraction with the same source URL as `dupA`. -/
def dupB : RawExtraction := [("source_url", PyVal.str "https://a")]

/-- A fetch in which Italy's page yields a structured extraction whose
`official_links` is the empty list — so `combine_country_data` raises
`IndexError` — and every other URL fails. -/
def fetchRaiseW : String → FetchOutcome := fun u =>
  if u = "https://consnewyork.esteri.it/en/servizi-consolari-e-visti/servizi-per-il-cittadino-straniero/visti/visas-to-enter-italy/digital-nomad-remote-worker-visa/"
  then FetchOutcome.structured [("official_links", PyVal.list [])]
  else FetchOutcome.failure

/-! ### Helper lemmas -/

/-- The fallback extractor always returns a nonempty (hence truthy)
dict. -/
theorem manual_extraction_not_empty (md url : String) :
    (manual_extraction md url).isEmpty = false := rfl

/-- The fallback extractor stores its income parse under
`min_monthly_income`. -/
theorem pyGet_manual_income (text url : String) :
    pyGet (manual_extraction text url) "min_monthly_income"
      = some (min_income text) := rfl

/-- `gatherData` distributes over appending URL batches. -/
theorem gatherData_append (a b : List (String × FetchOutcome)) :
    gatherData (a ++ b) = gatherData a ++ gatherData b := by
  induction a with
  | nil => rfl
  | cons p rest ih =>
      obtain ⟨url, o⟩ := p
      cases o with
      | failure => simpa [gatherData] using ih
      | structured d => simpa [gatherData] using ih
      | malformed md => simp [gatherData, manual_extraction_not_empty, ih]
      | nonDict v md => simpa [gatherData] using ih

/-- `asStrList` undoes the `PyVal.str` embedding of a string list. -/
theorem asStrList_map_str (l : List String) :
    asStrList (l.map PyVal.str) = some l := by
  induction l with
  | nil => rfl
  | cons s t ih => simp [asStrList, ih]

/-- The folded maximum is the start element or a list element. -/
theorem pyFold_mem (f : RawExtraction → Nat) (xs : List RawExtraction) :
    ∀ a, xs.foldl (maxStep f) a = a ∨ xs.foldl (maxStep f) a ∈ xs := by
  induction xs with
  | nil => intro a; exact Or.inl rfl
  | cons y ys ih =>
      intro a
      rcases ih (maxStep f a y) with h | h
      · rw [List.foldl_cons, h]
        unfold maxStep
        split
        · exact Or.inr (List.mem_cons_self _ _)
        · exact Or.inl rfl
      · exact Or.inr (List.mem_cons_of_mem _ h)

/-- The folded maximum's key dominates the start element's key. -/
theorem pyFold_ge_init (f : RawExtraction → Nat) (xs : List RawExtraction) :
    ∀ a, f a ≤ f (xs.foldl (maxStep f) a) := by
  induction xs with
  | nil => intro a; exact le_rfl
  | cons y ys ih =>
      intro a
      have h1 : f a ≤ f (maxStep f a y) := by
        unfold maxStep; split <;> omega
      exact h1.trans (ih (maxStep f a y))

/-- The folded maximum's key dominates every list element's key. -/
theorem pyFold_ge_all (f : RawExtraction → Nat) (xs : List RawExtraction) :
    ∀ a y, y ∈ xs → f y ≤ f (xs.foldl (maxStep f) a) := by
  induction xs with
  | nil => intro a y h; exact absurd h (List.not_mem_nil y)
  | cons x ys ih =>
      intro a y h
      rcases List.mem_cons.mp h with rfl | h
      · have h1 : f y ≤ f (maxStep f a y) := by
          unfold maxStep; split <;> omega
        exact h1.trans (pyFold_ge_init f ys (maxStep f a y))
      · exact ih (maxStep f a x) y h

/-- `pyMaxBy` returns a list member whose key is greatest. -/
theorem pyMaxBy_spec (f : RawExtraction → Nat) (xs : List RawExtraction)
    (b : RawExtraction) (h : pyMaxBy f xs = some b) :
    b ∈ xs ∧ ∀ y ∈ xs, f y ≤ f b := by
  cases xs with
  | nil => exact absurd h (by simp [pyMaxBy])
  | cons x t =>
      have hb : t.foldl (maxStep f) x = b := by
        simpa [pyMaxBy] using h
      constructor
      · rcases pyFold_mem f t x with h1 | h1
        · rw [← hb, h1]; exact List.mem_cons_self _ _
        · rw [← hb]; exact List.mem_cons_of_mem _ h1
      · intro y hy
        rcases List.mem_cons.mp hy with rfl | hy
        · rw [← hb]; exact pyFold_ge_init f t y
        · rw [← hb]; exact pyFold_ge_all f t x y hy

/-- A successful merge decomposes into the primary extraction, the brief
eligibility, the official link, and the record literal of lines
181-196. -/
theorem combine_eq_some_elim {info : CountryInfo} {xs : List RawExtraction}
    {now : String} {r : VisaRecord}
    (hc : combine_country_data info xs now = some r) :
    ∃ b brief link,
      pyMaxBy serLen xs = some b ∧
      create_brief_eligibility b = some brief ∧
      pyIndex0 (pyGetD b "official_links"
        (PyVal.list [pyGetD b "source_url" (PyVal.str "")])) = some link ∧
      r = { countryName := info.name
            slug := pySlug info.name
            visaName := pyGetD b "visa_name"
              (.str (info.name ++ " Digital Nomad Visa"))
            minMonthlyIncome := pyGetD b "min_monthly_income" (.int 0)
            briefEligibility := brief
            fullEligibility := pyGetD b "eligibility_criteria" (.list [])
            applicationProcess := pyGetD b "application_process" (.list [])
            officialLink := link
            visaDuration := pyGetD b "visa_duration" (.str "Check official source")
            pathToResidency := pyGetD b "path_to_residency" (.bool false)
            latitude := info.latitude
            longitude := info.longitude
            scraped_at := now
            all_sources := all_sources_of xs } := by
  unfold combine_country_data at hc
  split at hc
  · exact absurd hc (by simp)
  · rename_i b hm
    split at hc
    · exact absurd hc (by simp)
    · rename_i brief hbe
      split at hc
      · exact absurd hc (by simp)
      · rename_i link hl
        exact ⟨b, brief, link, hm, hbe, hl, (Option.some.inj hc).symm⟩

/-- When every extraction carries a nonempty source URL, line 195 lists
exactly those URLs, in order, duplicates included. -/
theorem all_sources_of_forall2 {xs : List RawExtraction} {urls : List String}
    (h : List.Forall₂
      (fun item u => pyGet item "source_url" = some (PyVal.str u) ∧ u ≠ "")
      xs urls) :
    all_sources_of xs = urls.map PyVal.str := by
  induction h with
  | nil => rfl
  | @cons item u xs2 urls2 hp _ ih =>
      obtain ⟨h1, h2⟩ := hp
      have hu : (u == "") = false := beq_eq_false_iff_ne.mpr h2
      simp only [all_sources_of, List.filterMap_cons, h1, truthy, hu,
        Bool.not_false, if_pos, List.map_cons] at *
      simpa [all_sources_of] using ih

/-- A key of the accumulated results comes from a country whose scrape
returned a record. -/
theorem scrapeLoop_mem_keys (fetch : String → FetchOutcome) (now : String) :
    ∀ (l : List (String × CountryInfo)) (k : String),
      k ∈ (scrapeLoop fetch now l).map Prod.fst →
      ∃ info r, (k, info) ∈ l ∧ scrape_country info fetch now = .ok r := by
  intro l
  induction l with
  | nil => intro k hk; simp [scrapeLoop] at hk
  | cons p rest ih =>
      intro k hk
      cases hs : scrape_country p.2 fetch now with
      | ok r =>
          rw [scrapeLoop, hs] at hk
          rcases List.mem_cons.mp hk with h1 | h1
          · exact ⟨p.2, r, by rw [h1]; exact List.mem_cons_self _ _, hs⟩
          · obtain ⟨info, r2, hmem, hok⟩ := ih k h1
            exact ⟨info, r2, List.mem_cons_of_mem _ hmem, hok⟩
      | noData =>
          rw [scrapeLoop, hs] at hk
          obtain ⟨info, r2, hmem, hok⟩ := ih k hk
          exact ⟨info, r2, List.mem_cons_of_mem _ hmem, hok⟩
      | raised =>
          rw [scrapeLoop, hs] at hk
          obtain ⟨info, r2, hmem, hok⟩ := ih k hk
          exact ⟨info, r2, List.mem_cons_of_mem _ hmem, hok⟩

/-- In a list whose keys are distinct, a key determines its value. -/
theorem assoc_unique : ∀ (l : List (String × CountryInfo)),
    (l.map Prod.fst).Nodup →
    ∀ {k : String} {a b : CountryInfo}, (k, a) ∈ l → (k, b) ∈ l → a = b := by
  intro l
  induction l with
  | nil => intro _ k a b ha; simp at ha
  | cons p rest ih =>
      intro hnd k a b ha hb
      rw [List.map_cons, List.nodup_cons] at hnd
      obtain ⟨hp, hrest⟩ := hnd
      rcases List.mem_cons.mp ha with h1 | h1 <;>
        rcases List.mem_cons.mp hb with h2 | h2
      · rw [← h1] at h2
        exact (Prod.mk.injEq _ _ _ _ ▸ h2 : _ ∧ _).2.symm
      · have hk : k ∈ rest.map Prod.fst := List.mem_map_of_mem Prod.fst h2
        have hpk : p.1 = k := by rw [← h1]
        rw [hpk] at hp
        exact absurd hk hp
      · have hk : k ∈ rest.map Prod.fst := List.mem_map_of_mem Prod.fst h1
        have hpk : p.1 = k := by rw [← h2]
        rw [hpk] at hp
        exact absurd hk hp
      · exact ih hrest h1 h2

/-- The five registry keys are distinct. -/
theorem countries_keys_nodup : (countries_data.map Prod.fst).Nodup := by decide

/-- A registered country whose scrape does not return a record is absent
from the accumulated results. -/
theorem scrape_all_absent (fetch : String → FetchOutcome) (now : String)
    {k : String} {info : CountryInfo} (hmem : (k, info) ∈ countries_data)
    (hnot : ∀ r, scrape_country info fetch now ≠ .ok r) :
    k ∉ (scrape_all_countries fetch now).map Prod.fst := by
  intro hk
  obtain ⟨info2, r, hmem2, hok⟩ :=
    scrapeLoop_mem_keys fetch now countries_data k hk
  have heq : info2 = info :=
    assoc_unique countries_data countries_keys_nodup hmem2 hmem
  exact hnot r (heq ▸ hok)

/-- The per-country loop keeps exactly the countries whose scrape
returned a record. -/
theorem scrapeLoop_eq_filterMap (fetch : String → FetchOutcome) (now : String) :
    ∀ l : List (String × CountryInfo),
      scrapeLoop fetch now l = l.filterMap (fun p =>
        match scrape_country p.2 fetch now with
        | .ok r => some (p.1, r)
        | .noData => Option.none
        | .raised => Option.none) := by
  intro l
  induction l with
  | nil => rfl
  | cons p rest ih =>
      cases hs : scrape_country p.2 fetch now with
      | ok r => rw [scrapeLoop, hs, List.filterMap_cons, hs, ih]
      | noData => rw [scrapeLoop, hs, List.filterMap_cons, hs, ih]
      | raised => rw [scrapeLoop, hs, List.filterMap_cons, hs, ih]

/-- A successful `re.search` is a successful positional match. -/
theorem reSearch_eq_some {f : List Char → Option (List Char)}
    {l r : List Char} (h : reSearch f l = some r) :
    ∃ l2, f l2 = some r := by
  induction l with
  | nil => exact ⟨[], h⟩
  | cons c cs ih =>
      rw [reSearch] at h
      cases hf : f (c :: cs) with
      | none => rw [hf] at h; exact ih h
      | some r2 => rw [hf] at h; exact ⟨c :: cs, hf ▸ h ▸ rfl⟩

/-- Everything `\d+` consumes is a digit. -/
theorem munchDigits_digits : ∀ (cs : List Char), ∀ c ∈ (munchDigits cs).1,
    c.isDigit = true := by
  intro cs
  induction cs with
  | nil => intro c hc; simp [munchDigits] at hc
  | cons x t ih =>
      intro c hc
      by_cases hx : x.isDigit
      · rw [munchDigits, if_pos hx] at hc
        rcases List.mem_cons.mp hc with rfl | hc
        · exact hx
        · exact ih c hc
      · rw [munchDigits, if_neg hx] at hc
        simp at hc

/-- Everything `(?:,\d+)*` consumes is a digit or a comma. -/
theorem munchCommaGroupsF_chars : ∀ (n : Nat) (cs : List Char),
    ∀ c ∈ (munchCommaGroupsF n cs).1, c.isDigit = true ∨ c = ',' := by
  intro n
  induction n with
  | zero => intro cs c hc; simp [munchCommaGroupsF] at hc
  | succ m ih =>
      intro cs c hc
      cases cs with
      | nil => simp [munchCommaGroupsF] at hc
      | cons x rest =>
          by_cases hx : x = ','
          · subst hx
            rcases hm : munchDigits rest with ⟨d, r⟩
            cases d with
            | nil => simp [munchCommaGroupsF, hm] at hc
            | cons d0 ds =>
                simp only [munchCommaGroupsF, hm, if_pos, List.mem_cons,
                  List.mem_append] at hc
                have hds : ∀ e ∈ d0 :: ds, e.isDigit = true := by
                  intro e he
                  refine munchDigits_digits rest e ?_
                  rw [hm]
                  exact he
                rcases hc with rfl | hc
                · exact Or.inr rfl
                · rcases hc with hc | hc
                  · rcases hc with rfl | hc
                    · exact Or.inl (hds c (List.mem_cons_self _ _))
                    · exact Or.inl (hds c (List.mem_cons_of_mem _ hc))
                  · exact ih r c hc
          · simp [munchCommaGroupsF, hx] at hc

/-- A captured income group starts with a digit and consists of digits and
commas. -/
theorem matchIncomeAt_group {cs g : List Char} (h : matchIncomeAt cs = some g) :
    (∃ d0 t, g = d0 :: t ∧ d0.isDigit = true)
    ∧ ∀ c ∈ g, c.isDigit = true ∨ c = ',' := by
  rcases hm : munchDigits cs with ⟨d, r1⟩
  cases d with
  | nil => rw [matchIncomeAt, hm] at h; exact absurd h (by simp)
  | cons d0 ds =>
      rw [matchIncomeAt, hm] at h
      simp only at h
      have hg : g = (d0 :: ds) ++ (munchCommaGroups r1).1 := by
        by_cases hcur : currencyHere (munchSpaces (munchCommaGroups r1).2).2 = true
        · rw [if_pos hcur] at h
          exact (Option.some.inj h).symm
        · rw [if_neg hcur] at h
          exact absurd h (by simp)
      have hds : ∀ e ∈ d0 :: ds, e.isDigit = true := by
        intro e he
        refine munchDigits_digits cs e ?_
        rw [hm]
        exact he
      constructor
      · exact ⟨d0, ds ++ (munchCommaGroups r1).1, by simp [hg],
          hds d0 (List.mem_cons_self _ _)⟩
      · intro c hc
        rw [hg] at hc
        rcases List.mem_append.mp hc with hc | hc
        · exact Or.inl (hds c hc)
        · exact munchCommaGroupsF_chars r1.length r1 c hc

/-- Stripping the commas from a captured income group leaves a nonempty
all-digit string, so `int()` succeeds on it. -/
theorem income_group_parses {gl : List Char}
    (hstart : ∃ d0 t, gl = d0 :: t ∧ d0.isDigit = true)
    (hchars : ∀ c ∈ gl, c.isDigit = true ∨ c = ',') :
    ∃ n : Int, pyParseInt (stripCommas (String.mk gl)) = some n := by
  obtain ⟨d0, t, rfl, hd0⟩ := hstart
  have hfilter : (stripCommas (String.mk (d0 :: t))).toList
      = (d0 :: t).filter (fun c => !(c == ',')) := rfl
  have hne : (d0 :: t).filter (fun c => !(c == ',')) ≠ [] := by
    have hd0ne : (d0 == ',') = false := by
      refine beq_eq_false_iff_ne.mpr ?_
      intro hcontr
      rw [hcontr] at hd0
      simp at hd0
    refine List.ne_nil_of_mem (a := d0) ?_
    refine List.mem_filter.mpr ⟨List.mem_cons_self _ _, ?_⟩
    simp [hd0ne]
  have hall : ((d0 :: t).filter (fun c => !(c == ','))).all Char.isDigit = true := by
    refine List.all_eq_true.mpr ?_
    intro c hcmem
    obtain ⟨hmem, hpred⟩ := List.mem_filter.mp hcmem
    rcases hchars c hmem with hdig | hcomma
    · exact hdig
    · rw [hcomma] at hpred
      simp at hpred
  rw [pyParseInt, hfilter, if_pos ⟨hne, hall⟩]
  exact ⟨_, rfl⟩

/-! ### Claim theorems -/

/-- C2 (as amended): for every URL whose page fetch succeeds but whose
extracted content raises `json.JSONDecodeError`, the error is caught
locally and treated as no structured result: the URL's contribution to the
gathered data is exactly the Fallback Extractor's output on the page text,
processing of the remaining URLs continues, and no error propagates (the
equations hold for every surrounding context).  A response that is valid
JSON but not an object — so not parseable as the declared object schema —
instead raises `TypeError` at the `source_url` assignment, which the
per-URL handler catches: that URL is skipped with no fallback. -/
theorem malformed_triggers_fallback (pre post : List (String × FetchOutcome))
    (url md : String) (v : PyVal) :
    gatherData (pre ++ (url, FetchOutcome.malformed md) :: post)
      = gatherData pre ++ manual_extraction md url :: gatherData post
    ∧ gatherData (pre ++ (url, FetchOutcome.nonDict v md) :: post)
      = gatherData pre ++ gatherData post := by
  constructor
  · rw [gatherData_append]
    simp [gatherData, manual_extraction_not_empty]
  · rw [gatherData_append]
    simp [gatherData]

/-- C2 counterexample: a successful fetch whose extracted content is valid
JSON but not an object (here a JSON array, the typical shape of an LLM
extraction result) is not parseable as the declared object schema, yet it
contributes nothing to the gathered data — the Fallback Extractor is not
invoked, unlike the `json.JSONDecodeError` case on the same page text,
whose (nonempty) fallback extraction is gathered. -/
theorem malformed_schema_counterexample :
    gatherData [("https://u",
        FetchOutcome.nonDict (PyVal.list [PyVal.str "block"]) "remote work page")]
      = []
    ∧ gatherData [("https://u", FetchOutcome.malformed "remote work page")]
      = [manual_extraction "remote work page" "https://u"]
    ∧ manual_extraction "remote work page" "https://u" ≠ [] := by
  refine ⟨rfl, ?_, by simp [manual_extraction]⟩
  simp [gatherData, manual_extraction_not_empty]

/-- C4: for every input text (including the empty string) and every source
URL, the Fallback Extractor terminates without raising (it is a total
function) and returns a well-formed RawExtraction — the seven fixed keys in
order — with `visa_name` defaulted to "Digital Nomad Visa" and
`extraction_method` equal to "manual". -/
theorem manual_extraction_wellformed (text url : String) :
    (manual_extraction text url).map Prod.fst =
      ["visa_name", "min_monthly_income", "eligibility_criteria",
       "application_process", "visa_duration", "source_url",
       "extraction_method"]
    ∧ pyGet (manual_extraction text url) "visa_name"
        = some (PyVal.str "Digital Nomad Visa")
    ∧ pyGet (manual_extraction text url) "extraction_method"
        = some (PyVal.str "manual")
    ∧ pyGet (manual_extraction text url) "source_url"
        = some (PyVal.str url) :=
  ⟨rfl, rfl, rfl, rfl⟩

/-- C6: for every extraction whose `eligibility_criteria` value is a list
of strings, `briefEligibility` is the first two entries joined with ". "
plus a trailing period, and the fixed sentence "Remote work visa for
digital nomads" when the list is empty. -/
theorem brief_eligibility_spec (data : RawExtraction) (ss : List String)
    (h : pyGetD data "eligibility_criteria" (PyVal.list [])
      = PyVal.list (ss.map PyVal.str)) :
    create_brief_eligibility data =
      some (if ss.isEmpty then "Remote work visa for digital nomads"
            else String.intercalate ". " (ss.take 2) ++ ".") := by
  unfold create_brief_eligibility
  rw [h]
  cases ss with
  | nil => simp [truthy]
  | cons a t =>
      simp [truthy, ← List.map_take, asStrList, asStrList_map_str]

/-- Witness for C6 at the spec's own example: `["A", "B", "C"]` gives
"A. B." and the empty list gives the fixed sentence. -/
theorem brief_eligibility_witness :
    create_brief_eligibility
        [("eligibility_criteria", PyVal.list [.str "A", .str "B", .str "C"])]
      = some "A. B."
    ∧ create_brief_eligibility [("eligibility_criteria", PyVal.list [])]
      = some "Remote work visa for digital nomads" :=
  ⟨(brief_eligibility_spec
      [("eligibility_criteria", PyVal.list [.str "A", .str "B", .str "C"])]
      ["A", "B", "C"] rfl).trans (by decide),
   (brief_eligibility_spec [("eligibility_criteria", PyVal.list [])]
      [] rfl).trans (by decide)⟩

/-- C9: for every input text, the Fallback Extractor's eligibility list
contains the remote-work sentence iff "remote work" occurs
case-insensitively, the income sentence iff "income" occurs, the insurance
sentence iff "insurance" occurs, the list is ordered as a sublist of the
three sentences in their fixed order (unless it is the single fallback
sentence), and when none of the three occurs it is exactly the single
sentence directing the reader to the official source. -/
theorem fallback_eligibility_spec (text url : String) :
    pyGet (manual_extraction text url) "eligibility_criteria"
        = some (PyVal.list ((elig_list text).map PyVal.str))
    ∧ ("Must work remotely for employer outside the country" ∈ elig_list text
        ↔ pyIn "remote work" (pyLower text) = true)
    ∧ ("Proof of sufficient income required" ∈ elig_list text
        ↔ pyIn "income" (pyLower text) = true)
    ∧ ("Health insurance required" ∈ elig_list text
        ↔ pyIn "insurance" (pyLower text) = true)
    ∧ ((elig_list text).Sublist
         ["Must work remotely for employer outside the country",
          "Proof of sufficient income required", "Health insurance required"]
       ∨ elig_list text = ["Check official source for requirements"])
    ∧ (pyIn "remote work" (pyLower text) = false →
       pyIn "income" (pyLower text) = false →
       pyIn "insurance" (pyLower text) = false →
       elig_list text = ["Check official source for requirements"]) := by
  refine ⟨rfl, ?_⟩
  cases hr : pyIn "remote work" (pyLower text) <;>
    cases hi : pyIn "income" (pyLower text) <;>
      cases hn : pyIn "insurance" (pyLower text) <;>
        simp +decide [elig_list, elig_base, hr, hi, hn]

/-- Witness for C9: with no keyword present the list is the single
fallback sentence; with "remote work" present (any casing) the remote-work
sentence is in the list. -/
theorem fallback_eligibility_witness :
    elig_list "" = ["Check official source for requirements"]
    ∧ "Must work remotely for employer outside the country"
        ∈ elig_list "Remote Work plus insurance" :=
  ⟨(fallback_eligibility_spec "" "u").2.2.2.2.2 rfl rfl rfl,
   ((fallback_eligibility_spec "Remote Work plus insurance" "u").2.1).mpr rfl⟩

/-- C1: for every merge of a non-empty extraction sequence (so the merge
returned a record, with `b` the primary extraction selected by `max`), the
record's `officialLink` is the first entry of the primary's
`official_links` when that field is present, else the primary's
`source_url` when that is present, else the empty string. -/
theorem merger_official_link (info : CountryInfo) (xs : List RawExtraction)
    (now : String) (r : VisaRecord) (b : RawExtraction)
    (hc : combine_country_data info xs now = some r)
    (hb : pyMaxBy serLen xs = some b) :
    (∀ x t, pyGet b "official_links" = some (PyVal.list (x :: t)) →
        r.officialLink = x)
    ∧ (∀ v, pyGet b "official_links" = Option.none →
        pyGet b "source_url" = some v → r.officialLink = v)
    ∧ (pyGet b "official_links" = Option.none →
        pyGet b "source_url" = Option.none →
        r.officialLink = PyVal.str "") := by
  obtain ⟨b2, brief, link, hm, hbe, hl, hr⟩ := combine_eq_some_elim hc
  have hbb : b2 = b := Option.some.inj (hm.symm.trans hb)
  subst hbb
  subst hr
  refine ⟨?_, ?_, ?_⟩
  · intro x t hx
    show link = x
    unfold pyGetD at hl
    rw [hx] at hl
    simp only [Option.getD_some, pyIndex0] at hl
    exact (Option.some.inj hl).symm
  · intro v h1 h2
    show link = v
    unfold pyGetD at hl
    rw [h1, h2] at hl
    simp only [Option.getD_none, Option.getD_some, pyIndex0] at hl
    exact (Option.some.inj hl).symm
  · intro h1 h2
    show link = PyVal.str ""
    unfold pyGetD at hl
    rw [h1, h2] at hl
    simp only [Option.getD_none, pyIndex0] at hl
    exact (Option.some.inj hl).symm

/-- Witness for C1: a merge whose primary has an explicit `official_links`
list yields its first entry as `officialLink`. -/
theorem merger_official_link_witness :
    (combine_country_data spainInfo [linkedExtraction] "t").map
        VisaRecord.officialLink
      = some (PyVal.str "https://gov.example/visa") := by
  obtain ⟨r, hr⟩ := Option.isSome_iff_exists.mp
    (show (combine_country_data spainInfo [linkedExtraction] "t").isSome = true
      from rfl)
  rw [hr]
  have h := (merger_official_link spainInfo [linkedExtraction] "t" r
      linkedExtraction hr rfl).1 (PyVal.str "https://gov.example/visa") [] rfl
  simp [h]

/-- C7: for every merge, the record's `all_sources` lists the `source_url`
of every extraction of the input sequence that has one, in input order,
duplicates preserved. -/
theorem merger_all_sources (info : CountryInfo) (xs : List RawExtraction)
    (now : String) (r : VisaRecord) (urls : List String)
    (hc : combine_country_data info xs now = some r)
    (h : List.Forall₂ (fun item u =>
        pyGet item "source_url" = some (PyVal.str u) ∧ u ≠ "") xs urls) :
    r.all_sources = urls.map PyVal.str := by
  obtain ⟨b, brief, link, hm, hbe, hl, hr⟩ := combine_eq_some_elim hc
  subst hr
  show all_sources_of xs = urls.map PyVal.str
  exact all_sources_of_forall2 h

/-- Witness for C7: two extractions sharing a source URL produce that URL
twice, in order — no deduplication. -/
theorem merger_all_sources_witness :
    (combine_country_data spainInfo [dupA, dupB] "t").map VisaRecord.all_sources
      = some [PyVal.str "https://a", PyVal.str "https://a"] := by
  obtain ⟨r, hr⟩ := Option.isSome_iff_exists.mp
    (show (combine_country_data spainInfo [dupA, dupB] "t").isSome = true
      from rfl)
  rw [hr]
  have h2 : List.Forall₂ (fun item u =>
      pyGet item "source_url" = some (PyVal.str u) ∧ u ≠ "")
      [dupA, dupB] ["https://a", "https://a"] :=
    List.Forall₂.cons ⟨rfl, by decide⟩
      (List.Forall₂.cons ⟨rfl, by decide⟩ List.Forall₂.nil)
  have h := merger_all_sources spainInfo [dupA, dupB] "t" r
    ["https://a", "https://a"] hr h2
  simp [h]

/-- C10: the merger's default of 0 for `minMonthlyIncome` applies only
when the `min_monthly_income` key is absent from the primary extraction;
when the key is present with the null value — as the Fallback Extractor
produces when its income parse found no match — the merged record carries
null, not 0. -/
theorem merger_income_null_vs_absent :
    (∀ (info : CountryInfo) (xs : List RawExtraction) (now : String)
        (r : VisaRecord) (b : RawExtraction),
        combine_country_data info xs now = some r →
        pyMaxBy serLen xs = some b →
        (pyGet b "min_monthly_income" = some PyVal.none →
            r.minMonthlyIncome = PyVal.none)
        ∧ (pyGet b "min_monthly_income" = Option.none →
            r.minMonthlyIncome = PyVal.int 0))
    ∧ (∀ text url, income_search text = Option.none →
        pyGet (manual_extraction text url) "min_monthly_income"
          = some PyVal.none) := by
  constructor
  · intro info xs now r b hc hb
    obtain ⟨b2, brief, link, hm, hbe, hl, hr⟩ := combine_eq_some_elim hc
    have hbb : b2 = b := Option.some.inj (hm.symm.trans hb)
    rw [hbb] at hr
    subst hr
    constructor
    · intro hx
      show pyGetD b "min_monthly_income" (PyVal.int 0) = PyVal.none
      unfold pyGetD
      rw [hx]
      rfl
    · intro hx
      show pyGetD b "min_monthly_income" (PyVal.int 0) = PyVal.int 0
      unfold pyGetD
      rw [hx]
      rfl
  · intro text url h
    rw [pyGet_manual_income]
    simp [min_income, h]

/-- Witness for C10: merging the fallback extraction of an empty page
yields a record whose `minMonthlyIncome` is null, not 0. -/
theorem merger_income_witness :
    (combine_country_data spainInfo [manual_extraction "" "https://u"] "t").map
        VisaRecord.minMonthlyIncome = some PyVal.none := by
  obtain ⟨r, hr⟩ := Option.isSome_iff_exists.mp
    (show (combine_country_data spainInfo
        [manual_extraction "" "https://u"] "t").isSome = true from rfl)
  rw [hr]
  have h := (merger_income_null_vs_absent.1 spainInfo
      [manual_extraction "" "https://u"] "t" r
      (manual_extraction "" "https://u") hr rfl).1 rfl
  simp [h]

/-- C3: merging an empty extraction sequence produces no record (`max`
raises on an empty sequence), a registered country for which no extraction
was gathered is absent from the output mapping, and for a non-empty
sequence the selected primary is a member whose serialized textual
representation has the greatest length. -/
theorem merger_empty_and_primary_longest :
    (∀ (info : CountryInfo) (now : String),
        combine_country_data info [] now = Option.none)
    ∧ (∀ (fetch : String → FetchOutcome) (now k : String) (info : CountryInfo),
        (k, info) ∈ countries_data →
        gatherData (info.urls.map (fun u => (u, fetch u))) = [] →
        k ∉ (scrape_all_countries fetch now).map Prod.fst)
    ∧ (∀ (xs : List RawExtraction) (b : RawExtraction),
        pyMaxBy serLen xs = some b → b ∈ xs ∧ ∀ y ∈ xs, serLen y ≤ serLen b)
    ∧ (∀ xs : List RawExtraction, xs ≠ [] → (pyMaxBy serLen xs).isSome = true) := by
  refine ⟨?_, ?_, ?_, ?_⟩
  · intro info now
    rfl
  · intro fetch now k info hmem hempty
    refine scrape_all_absent fetch now hmem ?_
    intro r hok
    simp [scrape_country, hempty] at hok
  · intro xs b h
    exact pyMaxBy_spec serLen xs b h
  · intro xs h
    cases xs with
    | nil => exact absurd rfl h
    | cons x t => rfl

/-- Witness for C3: the empty merge yields nothing, a country with only
failed fetches is absent, and of two synthetic extractions of differing
serialized lengths the longer is selected. -/
theorem merger_empty_witness :
    combine_country_data spainInfo [] "t" = Option.none
    ∧ "spain" ∉ (scrape_all_countries (fun _ => FetchOutcome.failure) "t").map
        Prod.fst
    ∧ pyMaxBy serLen [shortExtraction, longExtraction] = some longExtraction
    ∧ serLen shortExtraction ≤ serLen longExtraction
    ∧ (pyMaxBy serLen [shortExtraction, longExtraction]).isSome = true := by
  refine ⟨merger_empty_and_primary_longest.1 spainInfo "t", ?_, rfl, ?_, ?_⟩
  · exact merger_empty_and_primary_longest.2.1 (fun _ => .failure) "t" "spain"
      spainInfo (by simp [countries_data]) rfl
  · exact (merger_empty_and_primary_longest.2.2.1
      [shortExtraction, longExtraction] longExtraction rfl).2
      shortExtraction (List.mem_cons_self _ _)
  · exact merger_empty_and_primary_longest.2.2.2
      [shortExtraction, longExtraction] (by simp)

/-- C8: the per-country loop keeps exactly the countries whose scrape
returned a record — so a country whose processing raised is caught at the
country level and absent while the remaining countries are still
processed — and the final serialization step is reached for every run. -/
theorem driver_error_containment :
    (∀ (fetch : String → FetchOutcome) (now : String),
        scrape_all_countries fetch now = countries_data.filterMap (fun p =>
          match scrape_country p.2 fetch now with
          | .ok r => some (p.1, r)
          | .noData => Option.none
          | .raised => Option.none))
    ∧ (∀ (fetch : String → FetchOutcome) (now k : String) (info : CountryInfo),
        (k, info) ∈ countries_data →
        scrape_country info fetch now = .raised →
        k ∉ (scrape_all_countries fetch now).map Prod.fst)
    ∧ (∀ fetch now, run_all fetch now
        = (scrape_all_countries fetch now,
           save_results (scrape_all_countries fetch now))) := by
  refine ⟨?_, ?_, ?_⟩
  · intro fetch now
    exact scrapeLoop_eq_filterMap fetch now countries_data
  · intro fetch now k info hmem hraised
    refine scrape_all_absent fetch now hmem ?_
    intro r hok
    rw [hraised] at hok
    exact CountryResult.noConfusion hok
  · intro fetch now
    rfl

/-- Witness for C8: a fetch making Italy's merge raise (`official_links`
present but empty) leaves "italy" absent from the results. -/
theorem driver_error_containment_witness :
    scrape_country italyInfo fetchRaiseW "t" = CountryResult.raised
    ∧ "italy" ∉ (scrape_all_countries fetchRaiseW "t").map Prod.fst := by
  refine ⟨rfl, ?_⟩
  exact driver_error_containment.2.1 fetchRaiseW "t" "italy" italyInfo
    (by simp [countries_data]) rfl

/-- C5: the Fallback Extractor's income parse takes the first match of the
income pattern (digits with optional thousands separators followed by a
currency token), strips the separators and parses the result as an
integer — text containing "1,234 EUR" yields 1234 — and when no match
exists income is the null value, not zero (and on every successful match
the integer parse succeeds). -/
theorem fallback_income_parse :
    (∀ url, pyGet (manual_extraction "Proof of 1,234 EUR monthly income" url)
        "min_monthly_income" = some (PyVal.int 1234))
    ∧ (∀ text url, income_search text = Option.none →
        pyGet (manual_extraction text url) "min_monthly_income"
          = some PyVal.none)
    ∧ (∀ text url g, income_search text = some g →
        ∃ n : Int, pyParseInt (stripCommas g) = some n ∧
          pyGet (manual_extraction text url) "min_monthly_income"
            = some (PyVal.int n)) := by
  refine ⟨?_, ?_, ?_⟩
  · intro url
    rfl
  · intro text url h
    rw [pyGet_manual_income]
    simp [min_income, h]
  · intro text url g h
    obtain ⟨gl, hgl, rfl⟩ : ∃ gl,
        reSearch matchIncomeAt text.toList = some gl ∧ g = String.mk gl := by
      unfold income_search at h
      cases hrs : reSearch matchIncomeAt text.toList with
      | none => rw [hrs] at h; exact absurd h (by simp)
      | some gl => rw [hrs] at h; exact ⟨gl, rfl, (Option.some.inj h).symm⟩
    obtain ⟨l2, hm⟩ := reSearch_eq_some hgl
    obtain ⟨hstart, hchars⟩ := matchIncomeAt_group hm
    obtain ⟨n, hn⟩ := income_group_parses hstart hchars
    refine ⟨n, hn, ?_⟩
    rw [pyGet_manual_income]
    simp [min_income, h, hn]

/-- Witness for C5 at the spec's example inputs: "1,234 EUR" parses to
1234 and a text with no currency-tagged number leaves income null. -/
theorem fallback_income_witness :
    pyGet (manual_extraction "Proof of 1,234 EUR monthly income" "https://u")
        "min_monthly_income" = some (PyVal.int 1234)
    ∧ pyGet (manual_extraction "no currency-tagged number" "https://u")
        "min_monthly_income" = some PyVal.none :=
  ⟨fallback_income_parse.1 "https://u",
   fallback_income_parse.2.1 "no currency-tagged number" "https://u" rfl⟩

end VisaScraper
